import Mathlib

/-!
# Verification of the StyleGAN2 model components

Shallow embedding of `src/models/StyleGan2/model.py`: a shape-level model of
the tensor pipelines (convolution / FIR-resampling size arithmetic, the
generator cascade, the encoder trunk and heads), constructor-level models of
the configuration validation, and a value-level model of the modulated
convolution, noise injection and generator forward pass over an abstract
ordered field of scalars.

Sizes are modelled in `ℤ`; every division that appears takes a positive
divisor, for which the Lean `Int` division (Euclidean) coincides with the
Python floor division `//`.

The `upfirdn2d` and `fused_leaky_relu` custom ops are imported by the model
file from `op/` (not part of the sources at hand); their semantics are
modelled from the spec, §4.1–§4.2, and marked as such.
-/

namespace StyleGan2

-- ## Scalar primitives

/-- Opaque numeric primitives of the execution engine: only a square-root
function is needed.  `torch.rsqrt x = 1 / sqrt x`. -/
structure Prims (α : Type) where
  sqrt : α → α

variable {α : Type} [LinearOrderedField α]

/-- `torch.rsqrt`: reciprocal square root. -/
def Prims.rsqrt (p : Prims α) (x : α) : α := 1 / p.sqrt x

/-- The literal `1e-8` used by `PixelNorm` and `ModulatedConv2d`. -/
def eps8 : α := 1 / 10 ^ 8

/-- Modelled from the spec: the `fused_leaky_relu` op (from `op/fused_act`,
not among the sources) applies a leaky ReLU of slope 0.2 scaled by
`sqrt 2` (§4.1). -/
def fusedLeakyReLUFn (p : Prims α) (x : α) : α :=
  (if x < 0 then x * (1 / 5) else x) * p.sqrt 2

-- ## Shape model
-- Spatial sizes live in `ℤ`; `/` below is Euclidean division, which equals
-- the Python floor division `//` because every divisor is positive.

/-- Modelled from the spec: output spatial size of the `upfirdn2d` op
(§4.2 zero-insert by `up`, pad by `(p0, p1)`, convolve with a length-`k`
FIR kernel, decimate by `down`; standard polyphase resampling arithmetic). -/
def upfirdn2dSize (s up down p0 p1 k : ℤ) : ℤ :=
  (s * up + p0 + p1 - k) / down + 1

/-- Output spatial size of `F.conv2d` with square kernel `k`. -/
def conv2dSize (s k stride pad : ℤ) : ℤ := (s + 2 * pad - k) / stride + 1

/-- Output spatial size of `F.conv_transpose2d` with square kernel `k`. -/
def convTranspose2dSize (s k stride pad : ℤ) : ℤ := (s - 1) * stride - 2 * pad + k

namespace Upsample

/-- `Upsample.__init__`: `p = kernel.shape[0] - factor; pad0 = (p + 1) // 2 + factor - 1`. -/
def pad0 (k factor : ℤ) : ℤ := (k - factor + 1) / 2 + factor - 1

/-- `Upsample.__init__`: `pad1 = p // 2`. -/
def pad1 (k factor : ℤ) : ℤ := (k - factor) / 2

/-- `Upsample.forward`: `upfirdn2d(input, kernel, up=factor, down=1, pad=self.pad)`. -/
def outSize (k factor s : ℤ) : ℤ := upfirdn2dSize s factor 1 (pad0 k factor) (pad1 k factor) k

end Upsample

namespace Downsample

/-- `Downsample.__init__`: `p = kernel.shape[0] - factor; pad0 = (p + 1) // 2`. -/
def pad0 (k factor : ℤ) : ℤ := (k - factor + 1) / 2

/-- `Downsample.__init__`: `pad1 = p // 2`. -/
def pad1 (k factor : ℤ) : ℤ := (k - factor) / 2

/-- `Downsample.forward`: `upfirdn2d(input, kernel, up=1, down=factor, pad=self.pad)`. -/
def outSize (k factor s : ℤ) : ℤ := upfirdn2dSize s 1 factor (pad0 k factor) (pad1 k factor) k

end Downsample

namespace Blur

/-- `Blur.forward`: `upfirdn2d(input, kernel, pad=self.pad)` (up = down = 1);
the pad pair is supplied by the caller. -/
def outSize (k p0 p1 s : ℤ) : ℤ := upfirdn2dSize s 1 1 p0 p1 k

end Blur

-- ### `int(math.log(size, 2))`

/-- Fuel-driven floor logarithm base 2 (executable). -/
def intLog2Go : ℕ → ℕ → ℕ
  | 0, _ => 0
  | fuel + 1, m => if 2 ≤ m then intLog2Go fuel (m / 2) + 1 else 0

/-- Shallow embedding of Python `int(math.log(size, 2))`: the floor logarithm
base 2 (exact for the powers of two in the channel table). -/
def intLog2 (n : ℕ) : ℕ := intLog2Go n n

namespace Generator

/-- `Generator.__init__`: `self.log_size = int(math.log(size, 2))`. -/
def logSize (size : ℕ) : ℕ := intLog2 size

/-- `Generator.__init__`: `self.num_layers = (self.log_size - 2) * 2 + 1`. -/
def numLayers (size : ℕ) : ℕ := (logSize size - 2) * 2 + 1

/-- `Generator.__init__`: `self.n_latent = self.log_size * 2 - 2`. -/
def nLatent (size : ℕ) : ℕ := logSize size * 2 - 2

end Generator

namespace Encoder

/-- `Encoder.__init__`: `self.n_latent = log_size * 2 - 2  # copied from Generator`. -/
def nLatent (size : ℕ) : ℕ := intLog2 size * 2 - 2

end Encoder

/-- The channel-width table shared by `Generator`, `Discriminator` and
`Encoder` (`channel_multiplier` abbreviated `cm`). -/
def channels (cm : ℕ) : ℕ → Option ℕ
  | 4 => some 512
  | 8 => some 512
  | 16 => some 512
  | 32 => some 512
  | 64 => some (256 * cm)
  | 128 => some (128 * cm)
  | 256 => some (64 * cm)
  | 512 => some (32 * cm)
  | 1024 => some (16 * cm)
  | _ => none

/-- Tensor shapes `[batch, channel, height, width]` (rank may change in the
scoring heads, hence a list). -/
abbrev Shape := List ℤ

/-- Shape semantics of `EqualConv2d` inside `ConvLayer` (also used for the
plain branch of the modulated convolutions): channel check plus standard
convolution arithmetic. -/
def conv2dShape (cin cout k stride pad : ℕ) : Shape → Option Shape
  | [n, c, h, w] =>
      if c = (cin : ℤ) then
        some [n, (cout : ℤ), conv2dSize h k stride pad, conv2dSize w k stride pad]
      else none
  | _ => none

/-- Shape semantics of a `Blur` module with explicit pads. -/
def blurShape (k : ℕ) (p0 p1 : ℤ) : Shape → Option Shape
  | [n, c, h, w] => some [n, c, Blur.outSize k p0 p1 h, Blur.outSize k p0 p1 w]
  | _ => none

/-- Shape semantics of an `Upsample(blur_kernel)` module (factor 2). -/
def upsampleShape (k : ℕ) : Shape → Option Shape
  | [n, c, h, w] => some [n, c, Upsample.outSize k 2 h, Upsample.outSize k 2 w]
  | _ => none

/-- Shape semantics of `ModulatedConv2d.forward` (all three branches of the
source: transposed-conv + blur when upsampling, blur + strided conv when
downsampling, padded conv otherwise). `blurLen` is `len(blur_kernel)`. -/
def modConv2dShape (cin cout k : ℕ) (upsample downsample : Bool) (blurLen : ℕ) :
    Shape → Option Shape
  | [n, c, h, w] =>
      if c = (cin : ℤ) then
        if upsample then
          -- `p = (len(blur_kernel) - factor) - (kernel_size - 1)`, factor 2,
          -- `pad0 = (p + 1) // 2 + factor - 1`, `pad1 = p // 2 + 1`
          let p : ℤ := ((blurLen : ℤ) - 2) - ((k : ℤ) - 1)
          let h1 := convTranspose2dSize h k 2 0
          let w1 := convTranspose2dSize w k 2 0
          some [n, (cout : ℤ), Blur.outSize blurLen ((p + 1) / 2 + 1) (p / 2 + 1) h1,
                Blur.outSize blurLen ((p + 1) / 2 + 1) (p / 2 + 1) w1]
        else if downsample then
          -- `p = (len(blur_kernel) - factor) + (kernel_size - 1)`
          let p : ℤ := ((blurLen : ℤ) - 2) + ((k : ℤ) - 1)
          let h1 := Blur.outSize blurLen ((p + 1) / 2) (p / 2) h
          let w1 := Blur.outSize blurLen ((p + 1) / 2) (p / 2) w
          some [n, (cout : ℤ), conv2dSize h1 k 2 0, conv2dSize w1 k 2 0]
        else
          some [n, (cout : ℤ), conv2dSize h k 1 (k / 2), conv2dSize w k 1 (k / 2)]
      else none
  | _ => none

/-- Shape semantics of `StyledConv.forward`: modulated conv, then noise
injection and fused activation (both shape-preserving). -/
def styledConvShape (cin cout k : ℕ) (upsample : Bool) (blurLen : ℕ) :
    Shape → Option Shape :=
  modConv2dShape cin cout k upsample false blurLen

/-- Shape semantics of `ToRGB.forward`: a 1×1 modulated conv to 3 channels
plus bias; when a skip image is given it is upsampled and added (the
addition requires equal shapes). -/
def toRGBShape (cin blurLen : ℕ) (input : Shape) (skip : Option Shape) :
    Option Shape := do
  let out ← modConv2dShape cin 3 1 false false blurLen input
  match skip with
  | none => some out
  | some sk => do
      let sk2 ← upsampleShape blurLen sk
      -- the batch dim of both addends is the same unchanged batch; the
      -- elementwise add constrains the remaining dims
      if out.tail = sk2.tail then some out else none

/-- Shape semantics of `Generator.forward` for a batch of `n` latents:
the constant input at 4×4, the first styled conv and to-RGB, then one
(upsampling conv, conv, to-RGB) triple per resolution doubling
(`for i in range(3, log_size + 1)`).  Returns the image shape. -/
def Generator.imageShape (cm size n : ℕ) : Option Shape := do
  let ls := Generator.logSize size
  let c4 ← channels cm 4
  let s0 : Shape := [(n : ℤ), (c4 : ℤ), 4, 4]
  let s1 ← styledConvShape c4 c4 3 false 4 s0
  let skip0 ← toRGBShape c4 4 s1 none
  let st ← (List.range' 3 (ls - 2)).foldlM
    (fun (st : ℕ × Shape × Shape) i => do
      let (inCh, out, skip) := st
      let outCh ← channels cm (2 ^ i)
      let o1 ← styledConvShape inCh outCh 3 true 4 out
      let o2 ← styledConvShape outCh outCh 3 false 4 o1
      let sk ← toRGBShape outCh 4 o2 (some skip)
      pure (outCh, o2, sk))
    (c4, s1, skip0)
  pure st.2.2

/-- Shape semantics of a `ConvLayer`: optional blur + strided conv when
downsampling, else padded conv; activation layers preserve shape. -/
def convLayerShape (cin cout k : ℕ) (downsample : Bool) (blurLen : ℕ)
    (s : Shape) : Option Shape :=
  if downsample then do
    let p : ℤ := ((blurLen : ℤ) - 2) + ((k : ℤ) - 1)
    let s1 ← blurShape blurLen ((p + 1) / 2) (p / 2) s
    conv2dShape cin cout k 2 0 s1
  else conv2dShape cin cout k 1 (k / 2) s

/-- Shape semantics of `ResBlock.forward`: two convs (the second
downsampling) plus, in the `resnet` architecture, a downsampled 1×1 skip
added to the output (shape equality required by the addition). -/
def resBlockShape (cin cout blurLen : ℕ) (architecture : String) (s : Shape) :
    Option Shape := do
  let o1 ← convLayerShape cin cin 3 false blurLen s
  let o2 ← convLayerShape cin cout 3 true blurLen o1
  if architecture = ("resnet" : String) then do
    let sk ← convLayerShape cin cout 1 true blurLen s
    -- the batch dim of both addends is the same unchanged batch
    if o2.tail = sk.tail then some o2 else none
  else some o2

/-- Shape semantics of the minibatch-stddev block shared by
`Discriminator.forward` (lines 840–848) and `Encoder.forward`
(lines 974–983): the feature is viewed as
`(group, -1, stddev_feat, channel // stddev_feat, height, width)` with
`group = min(batch, stddev_group)` — the view exists iff the product of
the known dims divides the element count — and one stddev channel is
concatenated. -/
def stddevShape (sg feat : ℕ) : Shape → Option Shape
  | [n, c, h, w] =>
      if min n (sg : ℤ) * (feat : ℤ) * (c / (feat : ℤ)) * h * w ∣ n * c * h * w then
        some [n, c + 1, h, w]
      else none
  | _ => none

-- ## Scoring heads and constructor validation

/-- One layer of a `final_linear` scoring head (`Reshape`, `nn.AvgPool2d`,
`Squeeze`, `EqualLinear`). -/
inductive HeadLayer where
  | reshape : HeadLayer
  | avgpool : ℕ → HeadLayer
  | squeeze : HeadLayer
  | equalLin : ℕ → ℕ → HeadLayer

/-- Shape semantics of a head layer.  `Reshape` is `input.view(shape[0], -1)`;
`Squeeze` is `torch.squeeze` (drops **all** dimensions of size 1, including a
batch of 1); `EqualLinear` acts on the last dimension. -/
def headLayerShape : HeadLayer → Shape → Option Shape
  | .reshape, n :: rest => some [n, rest.prod]
  | .avgpool k, [n, c, h, w] =>
      some [n, c, (h - (k : ℤ)) / (k : ℤ) + 1, (w - (k : ℤ)) / (k : ℤ) + 1]
  | .squeeze, s => some (s.filter (· ≠ 1))
  | .equalLin din dout, [n, d] => if d = (din : ℤ) then some [n, (dout : ℤ)] else none
  | .equalLin din dout, [d] => if d = (din : ℤ) then some [(dout : ℤ)] else none
  | _, _ => none

/-- Shape semantics of a whole scoring head. -/
def headShape (ls : List HeadLayer) (s : Shape) : Option Shape :=
  ls.foldlM (fun a l => headLayerShape l a) s

/-- `Discriminator.__init__` lines 804–835: the `which_phi` if/elif chain.
There is **no** `else` branch in the source, so an unrecognized name leaves
`final_linear` unassigned (`none`); nothing is raised.  `c4 = channels[4]`. -/
def Discriminator.finalLinearSpec (whichPhi : String) (c4 : ℕ) :
    Option (List HeadLayer) :=
  if whichPhi = ("lin1" : String) then some [.reshape, .equalLin (c4 * 4 * 4) 1]
  else if whichPhi = ("lin2" : String) then
    some [.reshape, .equalLin (c4 * 4 * 4) c4, .equalLin c4 1]
  else if whichPhi = ("lin4" : String) then
    some [.reshape, .equalLin (c4 * 4 * 4) c4, .equalLin c4 c4, .equalLin c4 c4,
          .equalLin c4 1]
  else if whichPhi = ("avg1" : String) then some [.avgpool 4, .squeeze, .equalLin c4 1]
  else if whichPhi = ("avg2" : String) then
    some [.avgpool 4, .squeeze, .equalLin c4 c4, .equalLin c4 1]
  else none

/-- The configuration state a `Discriminator` holds after `__init__`
(restricted to what the claims are about). -/
structure DiscriminatorCfg where
  whichPhi : String
  finalLinear : Option (List HeadLayer)

/-- `Discriminator.__init__`: completes without raising for every
`which_phi`; `channels[4] = 512` for every multiplier. -/
def Discriminator.init (whichPhi : String) : Except String DiscriminatorCfg :=
  .ok ⟨whichPhi, Discriminator.finalLinearSpec whichPhi 512⟩

/-- `Discriminator.forward` line 851 applies `self.final_linear`; when
`__init__` never assigned it, attribute lookup fails only now. -/
def Discriminator.forwardHead (cfg : DiscriminatorCfg) : Except String (List HeadLayer) :=
  match cfg.finalLinear with
  | none => .error ("AttributeError: final_linear")
  | some h => .ok h

/-- The configuration state an `Encoder` holds after `__init__` (restricted
to what the claims are about). -/
structure EncoderCfg where
  latentFull : ℕ
  nLatent : ℕ
  finalLinear : List HeadLayer

/-- `Encoder.__init__` (validation-relevant part, in source order):
the `which_latent` dispatch (lines 901–906, `raise NotImplementedError`
otherwise); the assert that the latent space is one of `w, p, pn, z` or a
PCA state is present (line 911); the `which_phi` dispatch (lines 927–951, with the
`avg0` assert and a final `raise NotImplementedError`).
`channels[4] = 512` for every multiplier. -/
def Encoder.init (size styleDim : ℕ) (whichLatent whichPhi latentSpace : String)
    (reparameterization pcaState : Bool) : Except String EncoderCfg :=
  let nLat := Encoder.nLatent size
  match (if whichLatent = ("w_plus" : String) then some (styleDim * nLat)
         else if whichLatent = ("w_tied" : String) then some styleDim
         else none) with
  | none => .error ("NotImplementedError")
  | some latentFull =>
    if ¬(latentSpace = ("w" : String) ∨ latentSpace = ("p" : String) ∨
         latentSpace = ("pn" : String) ∨ latentSpace = ("z" : String) ∨ pcaState) then
      .error ("AssertionError")
    else
      let repMul := if reparameterization then 2 else 1
      if whichPhi = ("avg0" : String) then
        if 512 = latentFull * repMul then
          .ok ⟨latentFull, nLat, [.avgpool 4, .squeeze]⟩
        else .error ("AssertionError")
      else if whichPhi = ("avg1" : String) then
        .ok ⟨latentFull, nLat, [.avgpool 4, .squeeze, .equalLin 512 (latentFull * repMul)]⟩
      else if whichPhi = ("lin1" : String) then
        .ok ⟨latentFull, nLat, [.reshape, .equalLin (512 * 4 * 4) (latentFull * repMul)]⟩
      else if whichPhi = ("lin2" : String) then
        .ok ⟨latentFull, nLat,
             [.reshape, .equalLin (512 * 4 * 4) 512, .equalLin 512 (latentFull * repMul)]⟩
      else .error ("NotImplementedError")

/-- Shape semantics of `Encoder.latent_forward`: identity for `w`/`z`,
elementwise leaky ReLU for `p`, and for `pn` a per-`style_dim`-chunk affine
PCA map with square matrices — all shape-preserving. -/
def latentForwardShape (latentSpace : String) (s : Shape) : Option Shape :=
  if latentSpace = ("w" : String) ∨ latentSpace = ("z" : String) then some s
  else if latentSpace = ("p" : String) then some s
  else if latentSpace = ("pn" : String) then some s
  else none

/-- Shape semantics of the `Encoder` convolutional trunk
(`ConvLayer(3, channels[size], 1)` then one `ResBlock` per halving,
`for i in range(log_size, 2, -1)`); returns the running `in_channel`
together with the feature shape. -/
def Encoder.trunkShape (cm size n : ℕ) : Option (ℕ × Shape) := do
  let ls := intLog2 size
  let cS ← channels cm size
  let s0 ← convLayerShape 3 cS 1 false 4 [(n : ℤ), 3, (size : ℤ), (size : ℤ)]
  (List.range' 3 (ls - 2)).reverse.foldlM
    (fun (st : ℕ × Shape) i => do
      let (inCh, s) := st
      let outCh ← channels cm (2 ^ (i - 1))
      let s2 ← resBlockShape inCh outCh 4 ("resnet") s
      pure (outCh, s2))
    (cS, s0)

/-- Shape semantics of `Encoder.forward` (non-variational path): trunk,
minibatch-stddev concat (when `stddev_group > 1`), `final_conv`, the
configured scoring head, and `latent_forward`.  Returns the shape of the
code component of the result. -/
def Encoder.forwardShape (cm size n styleDim : ℕ)
    (whichLatent whichPhi latentSpace : String) (stddevGroup : ℕ)
    (pcaState : Bool) : Option Shape := do
  let cfg ← (Encoder.init size styleDim whichLatent whichPhi latentSpace false pcaState).toOption
  let (inCh, s1) ← Encoder.trunkShape cm size n
  let s2 ← if 1 < stddevGroup then stddevShape stddevGroup 1 s1 else some s1
  let s3 ← convLayerShape (inCh + (if 1 < stddevGroup then 1 else 0)) 512 3 false 4 s2
  let s4 ← headShape cfg.finalLinear s3
  latentForwardShape latentSpace s4

-- ## Value model
-- Tensors are total index functions `[batch, channel, y, x] → α`; explicit
-- bounds accompany every operation that reads the extent of a tensor.

/-- A 4-D feature tensor, indexed `[batch, channel, y, x]`. -/
abbrev T (α : Type) := ℕ → ℕ → ℤ → ℤ → α

/-- A 2-D tensor `[batch, feature]` (latents, styles). -/
abbrev M (α : Type) := ℕ → ℕ → α

/-- A noise map of shape `[batch, 1, y, x]` (the channel dim elided). -/
abbrev NoiseT (α : Type) := ℕ → ℤ → ℤ → α

/-- A per-block latent `[batch, block, feature]` (the `latent` built by
`Generator.forward`). -/
abbrev L (α : Type) := ℕ → ℕ → ℕ → α

/-- Read a tensor with zero padding outside `[0,h) × [0,w)`. -/
def boundedAt (h w : ℕ) (t : T α) (b c : ℕ) (y x : ℤ) : α :=
  if 0 ≤ y ∧ y < (h : ℤ) ∧ 0 ≤ x ∧ x < (w : ℤ) then t b c y x else 0

/-- `F.conv2d` with square kernel `k`, `groups` groups of `cinPer` input /
`coutPer` output channels each, on an input of spatial extent `h × w`
(weight layout `[groups*coutPer, cinPer, k, k]`). -/
def conv2dG (cinPer coutPer k h w : ℕ) (stride pad : ℤ) (input : T α)
    (weight : ℕ → ℕ → ℕ → ℕ → α) : T α :=
  fun b oc y x =>
    ∑ i ∈ Finset.range cinPer, ∑ ky ∈ Finset.range k, ∑ kx ∈ Finset.range k,
      boundedAt h w input b (oc / coutPer * cinPer + i)
          (y * stride + ky - pad) (x * stride + kx - pad) *
        weight oc i ky kx

/-- `F.conv_transpose2d` with square kernel `k`, padding 0, grouped, on an
input of spatial extent `h × w` (weight layout `[groups*cinPer, coutPer, k, k]`). -/
def convTranspose2dG (cinPer coutPer k h w : ℕ) (stride : ℤ) (input : T α)
    (weight : ℕ → ℕ → ℕ → ℕ → α) : T α :=
  fun b oc y x =>
    ∑ i ∈ Finset.range cinPer, ∑ ky ∈ Finset.range k, ∑ kx ∈ Finset.range k,
      (if (y - ky) % stride = 0 ∧ (x - kx) % stride = 0 then
         boundedAt h w input b (oc / coutPer * cinPer + i)
           ((y - ky) / stride) ((x - kx) / stride)
       else 0) *
        weight (oc / coutPer * cinPer + i) (oc % coutPer) ky kx

/-- Modelled from the spec: the `upfirdn2d` op (from `op/upfirdn2d`, not
among the sources): zero-insert by `up`, pad by `(p0, p1)` on both axes,
convolve with the (flipped) `kl × kl` FIR kernel, decimate by `down`
(§4.2). -/
def upfirdn2dV (h w : ℕ) (input : T α) (kernel : ℕ → ℕ → α)
    (kl up down : ℕ) (p0 _p1 : ℤ) : T α :=
  let padded : T α := fun b c u v =>
    if (u - p0) % (up : ℤ) = 0 ∧ (v - p0) % (up : ℤ) = 0 ∧
       0 ≤ u - p0 ∧ (u - p0) / up < (h : ℤ) ∧ 0 ≤ v - p0 ∧ (v - p0) / up < (w : ℤ) then
      input b c ((u - p0) / up) ((v - p0) / up)
    else 0
  fun b c y x =>
    ∑ i ∈ Finset.range kl, ∑ j ∈ Finset.range kl,
      kernel (kl - 1 - i) (kl - 1 - j) * padded b c (y * down + i) (x * down + j)

/-- `make_kernel` (1-D input path): outer product of the taps, normalized to
sum 1. -/
def makeKernel (taps : ℕ → α) (kl : ℕ) : ℕ → ℕ → α :=
  fun i j => taps i * taps j /
    (∑ a ∈ Finset.range kl, ∑ b ∈ Finset.range kl, taps a * taps b)

-- ### EqualLinear

/-- The state of an `EqualLinear` layer (`weight` is the stored parameter,
that is, after the constructor applied `div_(lr_mul)`). -/
structure EqualLinearV (α : Type) where
  in_dim : ℕ
  out_dim : ℕ
  weight : ℕ → ℕ → α
  bias : Option (ℕ → α)
  lr_mul : α
  scale : α
  activation : Bool

/-- `EqualLinear.__init__`: bias filled with `bias_init`,
`scale = (1 / sqrt(in_dim)) * lr_mul`. -/
def mkEqualLinear (p : Prims α) (in_dim out_dim : ℕ) (weight : ℕ → ℕ → α)
    (bias : Bool) (bias_init lr_mul : α) (activation : Bool) : EqualLinearV α :=
  { in_dim, out_dim, weight,
    bias := if bias then some fun _ => bias_init else none,
    lr_mul, scale := 1 / p.sqrt (in_dim : α) * lr_mul, activation }

/-- `EqualLinear.forward`: `F.linear(input, weight * scale)` followed by
either `fused_leaky_relu(·, bias * lr_mul)` or a plain bias add. -/
def EqualLinearV.forward (p : Prims α) (l : EqualLinearV α) (input : M α) : M α :=
  let lin : M α := fun b o => ∑ j ∈ Finset.range l.in_dim, input b j * (l.weight o j * l.scale)
  let bs : ℕ → α := l.bias.getD fun _ => 0
  if l.activation then fun b o => fusedLeakyReLUFn p (lin b o + bs o * l.lr_mul)
  else fun b o => lin b o + bs o * l.lr_mul

/-- `PixelNorm.forward`: `input * rsqrt(mean(input², dim=1) + 1e-8)` over a
feature dimension of size `d`. -/
def pixelNorm (p : Prims α) (d : ℕ) (input : M α) : M α :=
  fun b j => input b j * p.rsqrt ((∑ t ∈ Finset.range d, input b t ^ 2) / (d : α) + eps8)

-- ### ModulatedConv2d

/-- The state of a `ModulatedConv2d` (the leading broadcast dim of the weight,
of size 1, is elided; the blur kernel is stored with the `factor²` rescaling
already applied when upsampling, as in `Blur.__init__`). -/
structure ModulatedConv2dV (α : Type) where
  in_channel : ℕ
  out_channel : ℕ
  kernel_size : ℕ
  upsample : Bool
  downsample : Bool
  blurKernel : ℕ → ℕ → α
  blurK : ℕ
  blurPad0 : ℤ
  blurPad1 : ℤ
  scale : α
  padding : ℕ
  weight : ℕ → ℕ → ℕ → ℕ → α
  modulation : EqualLinearV α
  demodulate : Bool

/-- `ModulatedConv2d.__init__`: blur pads for the up/downsampling variants,
`scale = 1 / sqrt(in_channel * kernel_size²)`, `padding = kernel_size // 2`,
and the style projection `EqualLinear(style_dim, in_channel, bias_init=1)`. -/
def mkModulatedConv2d (p : Prims α) (in_channel out_channel kernel_size style_dim : ℕ)
    (demodulate upsample downsample : Bool) (taps : ℕ → α) (blurLen : ℕ)
    (weight : ℕ → ℕ → ℕ → ℕ → α) (modWeight : ℕ → ℕ → α) : ModulatedConv2dV α :=
  let pUp : ℤ := ((blurLen : ℤ) - 2) - ((kernel_size : ℤ) - 1)
  let pDown : ℤ := ((blurLen : ℤ) - 2) + ((kernel_size : ℤ) - 1)
  { in_channel, out_channel, kernel_size, upsample, downsample,
    blurKernel :=
      if upsample then fun i j => makeKernel taps blurLen i j * (2 : α) ^ 2
      else makeKernel taps blurLen,
    blurK := blurLen,
    blurPad0 := if upsample then (pUp + 1) / 2 + 1 else (pDown + 1) / 2,
    blurPad1 := if upsample then pUp / 2 + 1 else pDown / 2,
    scale := 1 / p.sqrt ((in_channel * kernel_size ^ 2 : ℕ) : α),
    padding := kernel_size / 2,
    weight,
    modulation := mkEqualLinear p style_dim in_channel modWeight true 1 1 false,
    demodulate }

/-- `ModulatedConv2d.forward` on an input of extent `h × w`: style
projection, weight modulation, optional demodulation, then a grouped
convolution with group count equal to the batch (the `view` reshapes are
realized by explicit index arithmetic: flat channel `b * C + c` ↔ `(b, c)`). -/
def ModulatedConv2dV.forward (p : Prims α) (m : ModulatedConv2dV α) (h w : ℕ)
    (input : T α) (style : M α) : T α :=
  let cin := m.in_channel
  let cout := m.out_channel
  let k := m.kernel_size
  let s : M α := m.modulation.forward p style
  let w1 : ℕ → ℕ → ℕ → ℕ → ℕ → α := fun b o i ky kx => m.scale * m.weight o i ky kx * s b i
  let w2 : ℕ → ℕ → ℕ → ℕ → ℕ → α :=
    if m.demodulate then fun b o i ky kx =>
      w1 b o i ky kx *
        p.rsqrt ((∑ i2 ∈ Finset.range cin, ∑ ky2 ∈ Finset.range k, ∑ kx2 ∈ Finset.range k,
            w1 b o i2 ky2 kx2 ^ 2) + eps8)
    else w1
  if m.upsample then
    -- `input.view(1, batch*in, h, w)`; `weight.transpose(1, 2).reshape(batch*in, out, k, k)`
    let inputFlat : T α := fun _ c y x => input (c / cin) (c % cin) y x
    let wT : ℕ → ℕ → ℕ → ℕ → α := fun c o ky kx => w2 (c / cin) o (c % cin) ky kx
    let outT := convTranspose2dG cin cout k h w 2 inputFlat wT
    let out : T α := fun b o y x => outT 0 (b * cout + o) y x
    let h2 := (h - 1) * 2 + k
    let w2sz := (w - 1) * 2 + k
    upfirdn2dV h2 w2sz out m.blurKernel m.blurK 1 1 m.blurPad0 m.blurPad1
  else if m.downsample then
    let inputB := upfirdn2dV h w input m.blurKernel m.blurK 1 1 m.blurPad0 m.blurPad1
    let h1 := ((h : ℤ) + m.blurPad0 + m.blurPad1 - m.blurK + 1).toNat
    let w1sz := ((w : ℤ) + m.blurPad0 + m.blurPad1 - m.blurK + 1).toNat
    let inputFlat : T α := fun _ c y x => inputB (c / cin) (c % cin) y x
    let wflat : ℕ → ℕ → ℕ → ℕ → α := fun oc i ky kx => w2 (oc / cout) (oc % cout) i ky kx
    let out := conv2dG cin cout k h1 w1sz 2 0 inputFlat wflat
    fun b o y x => out 0 (b * cout + o) y x
  else
    let inputFlat : T α := fun _ c y x => input (c / cin) (c % cin) y x
    let wflat : ℕ → ℕ → ℕ → ℕ → α := fun oc i ky kx => w2 (oc / cout) (oc % cout) i ky kx
    let out := conv2dG cin cout k h w 1 (m.padding : ℤ) inputFlat wflat
    fun b o y x => out 0 (b * cout + o) y x

-- ### Spec-side descriptions for the modulated convolution (claim C4)

/-- The modulated weight as the spec describes it: base weight times the
global scale `1/sqrt(in·k²)` times the per-sample per-input-channel style
scale. -/
def specModulatedWeight (scale : α) (weight : ℕ → ℕ → ℕ → ℕ → α) (s : M α) :
    ℕ → ℕ → ℕ → ℕ → ℕ → α :=
  fun b o i ky kx => scale * weight o i ky kx * s b i

/-- The demodulation factor as the spec describes it:
`1 / sqrt(Σ_{i,ky,kx} weight² + 1e-8)` per (sample, out-channel). -/
def specDemodFactor (p : Prims α) (cin k : ℕ) (wm : ℕ → ℕ → ℕ → ℕ → ℕ → α)
    (b o : ℕ) : α :=
  1 / p.sqrt ((∑ i ∈ Finset.range cin, ∑ ky ∈ Finset.range k, ∑ kx ∈ Finset.range k,
      wm b o i ky kx ^ 2) + eps8)

/-- A per-sample convolution (stride 1, padding `pad`): each sample is
convolved with its own kernel — how the spec describes the grouped
convolution with group count = batch. -/
def specPerSampleConv (cin k h w : ℕ) (pad : ℤ) (input : T α)
    (weight : ℕ → ℕ → ℕ → ℕ → ℕ → α) : T α :=
  fun b o y x =>
    ∑ i ∈ Finset.range cin, ∑ ky ∈ Finset.range k, ∑ kx ∈ Finset.range k,
      boundedAt h w input b i (y + ky - pad) (x + kx - pad) * weight b o i ky kx

-- ### Noise injection, activation, styled conv, to-RGB

/-- The state of a `NoiseInjection`: one learned scale. -/
structure NoiseInjectionV (α : Type) where
  weight : α

/-- `NoiseInjection.__init__`: `self.weight = nn.Parameter(torch.zeros(1))`. -/
def mkNoiseInjection : NoiseInjectionV α := ⟨0⟩

/-- `NoiseInjection.forward` line 302: when no noise is given, a fresh one is
drawn via `image.new_empty(batch, 1, height, width).normal_()` — this is the
shape of the sampled tensor. -/
def NoiseInjectionV.freshNoiseShape (batch _channel height width : ℕ) : ℕ × ℕ × ℕ × ℕ :=
  (batch, 1, height, width)

/-- `NoiseInjection.forward`: `image + weight * noise`, the `[batch,1,h,w]`
noise map broadcast across channels; `fresh` stands for the standard-normal
sample drawn when `noise` is `None`. -/
def NoiseInjectionV.forward (ni : NoiseInjectionV α) (image : T α)
    (noise : Option (NoiseT α)) (fresh : NoiseT α) : T α :=
  let nz := noise.getD fresh
  fun b c y x => image b c y x + ni.weight * nz b y x

/-- The state of a `FusedLeakyReLU` activation: a learned per-channel bias. -/
structure FusedLeakyReLUV (α : Type) where
  bias : ℕ → α

/-- Modelled from the spec: `FusedLeakyReLU.forward` (op not among the
sources) adds the per-channel bias then applies the scaled leaky ReLU
(§4.1). -/
def FusedLeakyReLUV.forward (p : Prims α) (f : FusedLeakyReLUV α) (image : T α) : T α :=
  fun b c y x => fusedLeakyReLUFn p (image b c y x + f.bias c)

/-- The state of a `StyledConv`. -/
structure StyledConvV (α : Type) where
  conv : ModulatedConv2dV α
  noise : NoiseInjectionV α
  activate : FusedLeakyReLUV α

/-- `StyledConv.forward`: conv, noise injection, activation. -/
def StyledConvV.forward (p : Prims α) (sc : StyledConvV α) (h w : ℕ) (input : T α)
    (style : M α) (noise : Option (NoiseT α)) (fresh : NoiseT α) : T α :=
  sc.activate.forward p (sc.noise.forward (sc.conv.forward p h w input style) noise fresh)

/-- The state of an `Upsample` module (kernel already rescaled by
`factor²`). -/
structure UpsampleV (α : Type) where
  kernel : ℕ → ℕ → α
  kl : ℕ
  factor : ℕ
  pad0 : ℤ
  pad1 : ℤ

/-- `Upsample.__init__` with the default factor 2. -/
def mkUpsample (taps : ℕ → α) (blurLen : ℕ) : UpsampleV α :=
  { kernel := fun i j => makeKernel taps blurLen i j * (2 : α) ^ 2,
    kl := blurLen, factor := 2,
    pad0 := ((blurLen : ℤ) - 2 + 1) / 2 + 1,
    pad1 := ((blurLen : ℤ) - 2) / 2 }

/-- `Upsample.forward` on an input of extent `h × w`. -/
def UpsampleV.forward (u : UpsampleV α) (h w : ℕ) (input : T α) : T α :=
  upfirdn2dV h w input u.kernel u.kl u.factor 1 u.pad0 u.pad1

/-- The state of a `ToRGB`. -/
structure ToRGBV (α : Type) where
  upsample : Option (UpsampleV α)
  conv : ModulatedConv2dV α
  bias : ℕ → α

/-- `ToRGB.forward` on an input of extent `h × w` and a skip of extent
`hs × ws`: 1×1 modulated conv (no demodulation) plus bias; the skip, when
given, is upsampled and added. -/
def ToRGBV.forward (p : Prims α) (t : ToRGBV α) (h w hs ws : ℕ) (input : T α)
    (style : M α) (skip : Option (T α)) : T α :=
  let out := t.conv.forward p h w input style
  let out2 : T α := fun b c y x => out b c y x + t.bias c
  match skip with
  | none => out2
  | some sk =>
      let sk2 :=
        match t.upsample with
        | some u => u.forward hs ws sk
        | none => sk
      fun b c y x => out2 b c y x + sk2 b c y x

-- ### Generator

/-- A 2-D style input `[batch, dim]` (the 3-D per-block form of
`Generator.forward` is outside this model). -/
structure StyleT (α : Type) where
  dim : ℕ
  val : M α

/-- Elements of a list at even positions (Python `xs[::2]`). -/
def listEvens : List β → List β
  | [] => []
  | [a] => [a]
  | a :: _ :: rest => a :: listEvens rest

/-- `styles.unsqueeze(1).repeat(1, count, 1)`: every block index maps to the
same style vector. -/
def repeatBlocks (v : M α) (_count : ℕ) : L α := fun b _j f => v b f

/-- `torch.cat([a, b], 1)` for per-block latents, `len1` being the block
count of `a`. -/
def torchCat1 (len1 : ℕ) (a b : L α) : L α :=
  fun bb j f => if j < len1 then a bb j f else b bb (j - len1) f

/-- The state of a `Generator`. -/
structure GeneratorV (α : Type) where
  size : ℕ
  style_dim : ℕ
  styleLayers : List (EqualLinearV α)
  constInput : ℕ → ℤ → ℤ → α
  conv1 : StyledConvV α
  to_rgb1 : ToRGBV α
  convs : List (StyledConvV α)
  to_rgbs : List (ToRGBV α)
  noiseBuffers : List (NoiseT α)
  log_size : ℕ
  num_layers : ℕ
  n_latent : ℕ

/-- The mapping network `self.style`: `PixelNorm` followed by the
`EqualLinear` stack. -/
def GeneratorV.styleForward (p : Prims α) (g : GeneratorV α) (input : M α) : M α :=
  g.styleLayers.foldl (fun acc l => l.forward p acc) (pixelNorm p g.style_dim input)

/-- `Generator.get_latent`: when the last dim exceeds `style_dim` the input
is viewed as `(-1, style_dim)`, mapped, and viewed back; `detach` only stops
gradients and leaves values unchanged.  The views are realized by flat
row-major index arithmetic. -/
def GeneratorV.getLatent (p : Prims α) (g : GeneratorV α) (input : StyleT α)
    (_detach : Bool) : StyleT α :=
  if g.style_dim < input.dim then
    let flat : M α := fun b2 j =>
      input.val ((b2 * g.style_dim + j) / input.dim) ((b2 * g.style_dim + j) % input.dim)
    let mapped := g.styleForward p flat
    ⟨input.dim, fun b j =>
      mapped ((b * input.dim + j) / g.style_dim) ((b * input.dim + j) % g.style_dim)⟩
  else ⟨input.dim, g.styleForward p input.val⟩

/-- The synthesis loop of `Generator.forward` (lines 595–602): per triple
(upsampling conv, conv, to-RGB) with the corresponding noise pair, doubling
the running resolution and consuming latent indices `i, i+1, i+2`; `li` is
the running noise-layer index used for fresh samples. -/
def GeneratorV.synthLoop (p : Prims α) :
    List (((StyledConvV α × StyledConvV α) × (Option (NoiseT α) × Option (NoiseT α))) ×
          ToRGBV α) →
    T α → T α → L α → ℕ → ℕ → ℕ → (ℕ → NoiseT α) → T α
  | [], _out, skip, _lat, _i, _res, _li, _fresh => skip
  | (((cA, cB), (n1, n2)), tr) :: rest, out, skip, lat, i, res, li, fresh =>
      let res2 := 2 * res
      let o1 := cA.forward p res res out (fun b f => lat b i f) n1 (fresh li)
      let o2 := cB.forward p res2 res2 o1 (fun b f => lat b (i + 1) f) n2 (fresh (li + 1))
      let sk := tr.forward p res2 res2 res res o2 (fun b f => lat b (i + 2) f) (some skip)
      GeneratorV.synthLoop p rest o2 sk lat (i + 2) res2 (li + 2) fresh

/-- `Generator.forward`.  Randomness is passed in as oracles: `randIndex`
stands for `random.randint(1, n_latent - 1)` and `fresh i` for the
standard-normal noise sampled at layer `i` when its entry is `None`. -/
def GeneratorV.forward (p : Prims α) (g : GeneratorV α) (styles : List (StyleT α))
    (return_latents : Bool) (inject_index : Option ℕ) (truncation : α)
    (truncation_latent : M α) (input_is_latent : Bool)
    (noise : Option (List (NoiseT α))) (randomize_noise : Bool)
    (detach_style : Bool) (randIndex : ℕ) (fresh : ℕ → NoiseT α) :
    T α × Option (L α) :=
  let styles :=
    if input_is_latent then styles
    else styles.map fun s => g.getLatent p s detach_style
  let noiseL : List (Option (NoiseT α)) :=
    match noise with
    | some ns => ns.map some
    | none =>
        if randomize_noise then List.replicate g.num_layers none
        else (List.range g.num_layers).map fun i =>
          some (g.noiseBuffers.getD i fun _ _ _ => 0)
  let styles :=
    if truncation < 1 then
      styles.map fun s =>
        ⟨s.dim, fun b j => truncation_latent b j + truncation * (s.val b j - truncation_latent b j)⟩
    else styles
  let latent : L α :=
    if styles.length < 2 then
      -- no mixing; `inject_index = n_latent` is the repeat count
      let s0 := styles.headD ⟨g.style_dim, fun _ _ => 0⟩
      if s0.dim = g.style_dim then repeatBlocks s0.val g.n_latent
      else fun b j f => s0.val b (j * g.style_dim + f)  -- view(batch, -1, style_dim)
    else
      let idx := inject_index.getD randIndex
      let s0 := styles.headD ⟨g.style_dim, fun _ _ => 0⟩
      let s1 := (styles.drop 1).headD ⟨g.style_dim, fun _ _ => 0⟩
      torchCat1 idx (repeatBlocks s0.val idx) (repeatBlocks s1.val (g.n_latent - idx))
  let out0 : T α := fun _ c y x => g.constInput c y x  -- ConstantInput: repeat over batch
  let out1 := g.conv1.forward p 4 4 out0 (fun b f => latent b 0 f) (noiseL.headD none) (fresh 0)
  let skip1 := g.to_rgb1.forward p 4 4 4 4 out1 (fun b f => latent b 1 f) none
  let convPairs := (listEvens g.convs).zip (listEvens (g.convs.drop 1))
  let noisePairs := (listEvens (noiseL.drop 1)).zip (listEvens (noiseL.drop 2))
  let blocks := (convPairs.zip noisePairs).zip g.to_rgbs
  let image := GeneratorV.synthLoop p blocks out1 skip1 latent 1 4 1 fresh
  (image, if return_latents then some latent else none)

end StyleGan2

open StyleGan2

variable {α : Type} [LinearOrderedField α]

-- ## Concrete instances (used to instantiate hypothesis-bearing theorems)

/-- A trivial primitive bundle over `ℚ`. -/
def prims0 : Prims ℚ := ⟨fun _ => 0⟩

/-- A concrete 1×1 modulated convolution over `ℚ`. -/
def modConv0 : ModulatedConv2dV ℚ :=
  mkModulatedConv2d prims0 1 1 1 1 true false false (fun _ => 1) 4
    (fun _ _ _ _ => 1) (fun _ _ => 1)

/-- A concrete generator state over `ℚ` at size 256 (`n_latent = 14`). -/
def gen0 : GeneratorV ℚ :=
  { size := 256, style_dim := 512, styleLayers := [],
    constInput := fun _ _ _ => 0,
    conv1 := ⟨modConv0, mkNoiseInjection, ⟨fun _ => 0⟩⟩,
    to_rgb1 := ⟨some (mkUpsample (fun _ => 1) 4),
                mkModulatedConv2d prims0 1 3 1 1 false false false (fun _ => 1) 4
                  (fun _ _ _ _ => 1) (fun _ _ => 1),
                fun _ => 0⟩,
    convs := [], to_rgbs := [], noiseBuffers := [],
    log_size := 8, num_layers := 13, n_latent := 14 }

-- ## Helper lemmas

/-- The fuel-driven `intLog2Go` agrees with `Nat.log2` whenever the fuel
dominates the argument. -/
theorem intLog2Go_eq_log2 (fuel : ℕ) : ∀ m : ℕ, m ≤ fuel → intLog2Go fuel m = Nat.log2 m := by
  induction fuel with
  | zero =>
      intro m hm
      interval_cases m
      simp [intLog2Go, Nat.log2]
  | succ n ih =>
      intro m hm
      rw [intLog2Go, Nat.log2]
      simp only [ge_iff_le]
      by_cases h2 : 2 ≤ m
      · have hlt := Nat.div_lt_self (show 0 < m by omega) (show 1 < 2 by omega)
        rw [if_pos h2, if_pos h2, ih (m / 2) (by omega)]
      · rw [if_neg h2, if_neg h2]

/-- `intLog2` is `Nat.log2`. -/
theorem intLog2_eq_log2 (n : ℕ) : intLog2 n = Nat.log2 n := intLog2Go_eq_log2 n n le_rfl

/-- When the batch is divisible by `min batch stddev_group`, the
minibatch-stddev view exists and one channel is appended. -/
theorem stddevShape_of_dvd (sg n : ℕ) (c h w : ℤ) (hd : min n sg ∣ n) :
    stddevShape sg 1 [(n : ℤ), c, h, w] = some [(n : ℤ), c + 1, h, w] := by
  simp only [stddevShape, Nat.cast_one, Int.ediv_one, mul_one]
  rw [if_pos]
  have h2 : ((min n sg : ℕ) : ℤ) ∣ ((n : ℕ) : ℤ) := by exact_mod_cast hd
  rw [Nat.cast_min] at h2
  calc min (n : ℤ) (sg : ℤ) * c * h * w
      = min (n : ℤ) (sg : ℤ) * (c * h * w) := by ring
    _ ∣ (n : ℤ) * (c * h * w) := mul_dvd_mul h2 dvd_rfl
    _ = (n : ℤ) * c * h * w := by ring

/-- Evaluation of the encoder forward shape for a `lin2` head in latent
space `w`, given the construction result and the trunk shape. -/
theorem encoder_forwardShape_eval (r n sd lf : ℕ) (whichLatent : String)
    (hinit : Encoder.init r sd whichLatent ("lin2") ("w") false false =
      Except.ok ⟨lf, Encoder.nLatent r,
        [.reshape, .equalLin (512 * 4 * 4) 512, .equalLin 512 (lf * 1)]⟩)
    (ht : Encoder.trunkShape 2 r n = some (512, [(n : ℤ), 512, 4, 4]))
    (hdvd : min n 4 ∣ n) :
    Encoder.forwardShape 2 r n sd whichLatent ("lin2") ("w") 4 false = some [(n : ℤ), (lf : ℤ)] := by
  simp only [Encoder.forwardShape, hinit, ht, Except.toOption, Option.some_bind]
  norm_num
  rw [stddevShape_of_dvd 4 n 512 4 4 hdvd]
  norm_num [convLayerShape, conv2dShape, conv2dSize, headShape, headLayerShape,
    latentForwardShape, Option.some_bind]

-- ## Claims

/-- Claim C1: for every supported resolution `R` (a power of two in the
channel-width table), every batch size `N` and every latent of shape
`[N, style_dim]`, `Generator(R).forward([z])` returns as first component an
image tensor of shape `[N, 3, R, R]` (shape model, default
`channel_multiplier = 2`). -/
theorem c1_generator_output_shape (n r : ℕ)
    (hr : r ∈ [4, 8, 16, 32, 64, 128, 256, 512, 1024]) :
    Generator.imageShape 2 r n = some [(n : ℤ), 3, (r : ℤ), (r : ℤ)] := by
  fin_cases hr <;> rfl

theorem c1_witness :
    (256 ∈ [4, 8, 16, 32, 64, 128, 256, 512, 1024]) ∧
    Generator.imageShape 2 256 2 = some [((2 : ℕ) : ℤ), 3, ((256 : ℕ) : ℤ), ((256 : ℕ) : ℤ)] :=
  ⟨by decide, c1_generator_output_shape 2 256 (by decide)⟩

/-- Claim C2: for every `Generator` and `Encoder` constructed with size
`R = 2^k`, `n_latent = 2 * log2 R - 2`; in particular 14 at `R = 256`. -/
theorem c2_n_latent_formula :
    (∀ k : ℕ, Generator.nLatent (2 ^ k) = 2 * k - 2 ∧ Encoder.nLatent (2 ^ k) = 2 * k - 2) ∧
    Generator.nLatent 256 = 14 ∧ Encoder.nLatent 256 = 14 := by
  refine ⟨fun k => ?_, by decide, by decide⟩
  have h : intLog2 (2 ^ k) = k := by rw [intLog2_eq_log2]; exact Nat.log2_two_pow
  constructor
  · simp [Generator.nLatent, Generator.logSize, h, Nat.mul_comm]
  · simp [Encoder.nLatent, h, Nat.mul_comm]

/-- Claim C3: the `Upsample`/`Downsample` padding formulas, and the FIR
resample size laws — `Upsample` (factor 2) doubles a spatial size `S`,
`Downsample` halves it (floor), and a `Blur` whose pads sum to `K - 1`
preserves it. -/
theorem c3_fir_pads_and_sizes :
    (∀ k f : ℤ, Upsample.pad0 k f = (k - f + 1) / 2 + f - 1 ∧
                Upsample.pad1 k f = (k - f) / 2) ∧
    (∀ k f : ℤ, Downsample.pad0 k f = (k - f + 1) / 2 ∧
                Downsample.pad1 k f = (k - f) / 2) ∧
    (∀ (k : ℤ) (s : ℕ), Upsample.outSize k 2 s = 2 * s) ∧
    (∀ (k : ℤ) (s : ℕ), Downsample.outSize k 2 s = ((s / 2 : ℕ) : ℤ)) ∧
    (∀ (k p0 p1 : ℤ) (s : ℕ), p0 + p1 = k - 1 → Blur.outSize k p0 p1 s = s) := by
  refine ⟨fun k f => ⟨rfl, rfl⟩, fun k f => ⟨rfl, rfl⟩, fun k s => ?_, fun k s => ?_,
    fun k p0 p1 s h => ?_⟩
  · simp only [Upsample.outSize, upfirdn2dSize, Upsample.pad0, Upsample.pad1]
    omega
  · simp only [Downsample.outSize, upfirdn2dSize, Downsample.pad0, Downsample.pad1]
    omega
  · simp only [Blur.outSize, upfirdn2dSize]
    omega

theorem c3_witness :
    (2 : ℤ) + 1 = 4 - 1 ∧ Blur.outSize 4 2 1 ((6 : ℕ) : ℤ) = ((6 : ℕ) : ℤ) :=
  ⟨by decide, c3_fir_pads_and_sizes.2.2.2.2 4 2 1 6 (by decide)⟩

/-- Claim C4: `ModulatedConv2d.forward` (plain branch) equals the per-sample
convolution with the kernel `scale * weight * style-scale` further multiplied
by the demodulation factor `1 / sqrt(Σ weight² + 1e-8)`; the global scale is
`1 / sqrt(in_channel * k²)`; the style projection is an equalized linear
layer whose bias is initialized to 1; the grouped convolution uses group
count = batch (realized by the flat-channel index arithmetic). -/
theorem c4_modulated_conv_formula (p : Prims α) (cin cout k sd : ℕ) (taps : ℕ → α)
    (bl : ℕ) (w : ℕ → ℕ → ℕ → ℕ → α) (mw : ℕ → ℕ → α) (input : T α) (style : M α)
    (h wd : ℕ) (b o : ℕ) (y x : ℤ) (m : ModulatedConv2dV α)
    (hm : m = mkModulatedConv2d p cin cout k sd true false false taps bl w mw)
    (ho : o < cout) :
    m.scale = 1 / p.sqrt ((cin * k ^ 2 : ℕ) : α) ∧
    m.modulation.bias = some (fun _ => (1 : α)) ∧
    m.forward p h wd input style b o y x
      = specPerSampleConv cin k h wd ((k / 2 : ℕ) : ℤ) input
          (fun b2 o2 i ky kx =>
            specModulatedWeight m.scale m.weight (m.modulation.forward p style) b2 o2 i ky kx *
              specDemodFactor p cin k
                (specModulatedWeight m.scale m.weight (m.modulation.forward p style)) b2 o2)
          b o y x := by
  subst hm
  refine ⟨rfl, rfl, ?_⟩
  have hcout : 0 < cout := Nat.lt_of_le_of_lt (Nat.zero_le o) ho
  have hdiv : (b * cout + o) / cout = b := by
    rw [Nat.mul_comm, Nat.mul_add_div hcout, Nat.div_eq_of_lt ho, Nat.add_zero]
  have hmod : (b * cout + o) % cout = o := by
    rw [Nat.mul_comm, Nat.mul_add_mod]
    exact Nat.mod_eq_of_lt ho
  simp only [mkModulatedConv2d, ModulatedConv2dV.forward, conv2dG, specPerSampleConv,
    specModulatedWeight, specDemodFactor, Prims.rsqrt, Bool.false_eq_true, if_false, if_true,
    Bool.true_eq_false, ite_true, ite_false]
  refine Finset.sum_congr rfl fun i hi => Finset.sum_congr rfl fun ky _ =>
    Finset.sum_congr rfl fun kx _ => ?_
  have hicin : i < cin := Finset.mem_range.mp hi
  have hcin : 0 < cin := Nat.lt_of_le_of_lt (Nat.zero_le i) hicin
  have hdiv2 : (b * cin + i) / cin = b := by
    rw [Nat.mul_comm, Nat.mul_add_div hcin, Nat.div_eq_of_lt hicin, Nat.add_zero]
  have hmod2 : (b * cin + i) % cin = i := by
    rw [Nat.mul_comm, Nat.mul_add_mod]
    exact Nat.mod_eq_of_lt hicin
  simp [boundedAt, hdiv, hmod, hdiv2, hmod2, mul_one]

theorem c4_witness :
    modConv0.scale = 1 / prims0.sqrt ((1 * 1 ^ 2 : ℕ) : ℚ) ∧
    modConv0.modulation.bias = some (fun _ => (1 : ℚ)) ∧
    modConv0.forward prims0 1 1 (fun _ _ _ _ => 1) (fun _ _ => 1) 0 0 0 0
      = specPerSampleConv 1 1 1 1 ((1 / 2 : ℕ) : ℤ) (fun _ _ _ _ => 1)
          (fun b2 o2 i ky kx =>
            specModulatedWeight modConv0.scale modConv0.weight
                (modConv0.modulation.forward prims0 (fun _ _ => 1)) b2 o2 i ky kx *
              specDemodFactor prims0 1 1
                (specModulatedWeight modConv0.scale modConv0.weight
                  (modConv0.modulation.forward prims0 (fun _ _ => 1))) b2 o2)
          0 0 0 0 :=
  c4_modulated_conv_formula prims0 1 1 1 1 (fun _ => 1) 4 (fun _ _ _ _ => 1) (fun _ _ => 1)
    (fun _ _ _ _ => 1) (fun _ _ => 1) 1 1 0 0 0 0 modConv0 rfl (by decide)

/-- Claim C5, counterexample: the noise map drawn by `NoiseInjection.forward`
when none is supplied has shape `[N, 1, H, W]`, not the shape of the feature
map — at `[2, 3, 4, 4]` the drawn shape differs. -/
theorem c5_counterexample :
    NoiseInjectionV.freshNoiseShape 2 3 4 4 ≠ (2, 3, 4, 4) := by decide

/-- Claim C5, amended: `NoiseInjection.forward` returns
`image + weight * noise` elementwise with the learned scale initialized to 0;
when no noise map is supplied one is drawn per call as a standard normal of
shape `[N, 1, H, W]` — matching the batch and spatial dims of the feature map
with a single channel broadcast across its channels. -/
theorem c5_noise_injection_amended :
    ((mkNoiseInjection : NoiseInjectionV α).weight = 0) ∧
    (∀ (wt : α) (image : T α) (nz fresh : NoiseT α),
        (NoiseInjectionV.mk wt).forward image (some nz) fresh
          = fun b c y x => image b c y x + wt * nz b y x) ∧
    (∀ (wt : α) (image : T α) (fresh : NoiseT α),
        (NoiseInjectionV.mk wt).forward image none fresh
          = fun b c y x => image b c y x + wt * fresh b y x) ∧
    (∀ batch channel height width : ℕ,
        NoiseInjectionV.freshNoiseShape batch channel height width
          = (batch, 1, height, width)) :=
  ⟨rfl, fun _ _ _ _ => rfl, fun _ _ _ => rfl, fun _ _ _ _ => rfl⟩

/-- Claim C6: with exactly two style vectors and `inject_index = i` in
`[1, n_latent - 1]`, the per-block latent sequence built by
`Generator.forward` has its first `i` entries equal to the first style
vector and the remaining entries equal to the second, exactly. -/
theorem c6_style_mixing (p : Prims α) (g : GeneratorV α) (a b : StyleT α) (i : ℕ)
    (tl : M α) (noise : Option (List (NoiseT α))) (rn : Bool) (ri : ℕ)
    (fresh : ℕ → NoiseT α) (h1 : 1 ≤ i) (h2 : i ≤ g.n_latent - 1) :
    ((g.forward p [a, b] true (some i) 1 tl true noise rn false ri fresh).2).isSome = true ∧
    ∀ lat, (g.forward p [a, b] true (some i) 1 tl true noise rn false ri fresh).2 = some lat →
      (∀ bb j f, j < i → lat bb j f = a.val bb f) ∧
      (∀ bb j f, i ≤ j → j < g.n_latent → lat bb j f = b.val bb f) := by
  have hval : (g.forward p [a, b] true (some i) 1 tl true noise rn false ri fresh).2
      = some (torchCat1 i (repeatBlocks a.val i) (repeatBlocks b.val (g.n_latent - i))) := by
    simp [GeneratorV.forward]
  refine ⟨by rw [hval]; rfl, fun lat hl => ?_⟩
  rw [hval] at hl
  obtain rfl := (Option.some.inj hl).symm
  constructor
  · intro bb j f hj
    simp [torchCat1, repeatBlocks, hj]
  · intro bb j f hij hjn
    simp [torchCat1, repeatBlocks, Nat.not_lt.mpr hij]

theorem c6_witness :
    ((gen0.forward prims0 [⟨512, fun _ _ => 1⟩, ⟨512, fun _ _ => 2⟩] true (some 1) 1
        (fun _ _ => 0) true none true false 1 (fun _ _ _ _ => 0)).2).isSome = true ∧
    ((gen0.forward prims0 [⟨512, fun _ _ => 1⟩, ⟨512, fun _ _ => 2⟩] true (some 1) 1
        (fun _ _ => 0) true none true false 1 (fun _ _ _ _ => 0)).2).getD (fun _ _ _ => 0) 0 0 0
      = 1 ∧
    ((gen0.forward prims0 [⟨512, fun _ _ => 1⟩, ⟨512, fun _ _ => 2⟩] true (some 1) 1
        (fun _ _ => 0) true none true false 1 (fun _ _ _ _ => 0)).2).getD (fun _ _ _ => 0) 0 5 0
      = 2 := by
  have h := c6_style_mixing prims0 gen0 ⟨512, fun _ _ => 1⟩ ⟨512, fun _ _ => 2⟩ 1
    (fun _ _ => 0) none true 1 (fun _ _ _ _ => 0) (by decide) (by decide)
  obtain ⟨lat, hl⟩ := Option.isSome_iff_exists.mp h.1
  refine ⟨h.1, ?_, ?_⟩
  · rw [hl, Option.getD_some]
    exact (h.2 lat hl).1 0 0 0 (by decide)
  · rw [hl, Option.getD_some]
    exact (h.2 lat hl).2 0 5 0 (by decide) (by decide)

/-- Claim C7: for every latent `z` and fixed per-layer noise list `ns`,
`Generator.forward([get_latent(z)], input_is_latent=True, noise=ns)`
produces the same image as `Generator.forward([z], noise=ns)`. -/
theorem c7_latent_roundtrip (p : Prims α) (g : GeneratorV α) (z : StyleT α)
    (ns : List (NoiseT α)) (tl : M α) (ri : ℕ) (fresh : ℕ → NoiseT α) :
    (g.forward p [g.getLatent p z false] false none 1 tl true (some ns) true false ri fresh).1
      = (g.forward p [z] false none 1 tl false (some ns) true false ri fresh).1 := rfl

/-- Claim C8, counterexample: constructing a `Discriminator` with
`which_phi = "vec"` (not a recognized head) does **not** raise at
construction — `__init__` completes with `final_linear` left unset. -/
theorem c8_counterexample :
    Discriminator.init ("vec") = Except.ok ⟨("vec"), none⟩ ∧
    ("vec") ∉ (["lin1", "lin2", "lin4", "avg1", "avg2"] : List String) :=
  ⟨rfl, by decide⟩

/-- Claim C8, amended: the `Encoder` fails at construction for an
unrecognized `which_latent` (NotImplementedError), `latent_space` with no
PCA state (AssertionError), or `which_phi` (NotImplementedError); the
`Discriminator`, however, completes construction for an unrecognized
`which_phi` with `final_linear` unset, so the failure surfaces only at the
first forward call (AttributeError). -/
theorem c8_construction_validation_amended (size sd : ℕ) (rep pca : Bool) :
    (∀ wl : String, wl ∉ (["w_plus", "w_tied"] : List String) →
      ∀ phi lsp : String,
        Encoder.init size sd wl phi lsp rep pca = Except.error ("NotImplementedError")) ∧
    (∀ lsp : String, lsp ∉ (["w", "p", "pn", "z"] : List String) →
      ∀ phi : String,
        Encoder.init size sd ("w_plus") phi lsp rep false = Except.error ("AssertionError")) ∧
    (∀ phi : String, phi ∉ (["avg0", "avg1", "lin1", "lin2"] : List String) →
      Encoder.init size sd ("w_plus") phi ("w") rep pca = Except.error ("NotImplementedError")) ∧
    (∀ phi : String, phi ∉ (["lin1", "lin2", "lin4", "avg1", "avg2"] : List String) →
      Discriminator.init phi = Except.ok ⟨phi, none⟩ ∧
      Discriminator.forwardHead ⟨phi, none⟩ = Except.error ("AttributeError: final_linear")) := by
  refine ⟨fun wl hwl phi lsp => ?_, fun lsp hlsp phi => ?_, fun phi hphi => ?_,
    fun phi hphi => ?_⟩
  · simp only [List.mem_cons, List.not_mem_nil, or_false, not_or] at hwl
    obtain ⟨h1, h2⟩ := hwl
    simp [Encoder.init, h1, h2]
  · simp only [List.mem_cons, List.not_mem_nil, or_false, not_or] at hlsp
    obtain ⟨h1, h2, h3, h4⟩ := hlsp
    simp [Encoder.init, h1, h2, h3, h4]
  · simp only [List.mem_cons, List.not_mem_nil, or_false, not_or] at hphi
    obtain ⟨h1, h2, h3, h4⟩ := hphi
    simp [Encoder.init, h1, h2, h3, h4]
  · simp only [List.mem_cons, List.not_mem_nil, or_false, not_or] at hphi
    obtain ⟨h1, h2, h3, h4, h5⟩ := hphi
    exact ⟨by simp [Discriminator.init, Discriminator.finalLinearSpec, h1, h2, h3, h4, h5], rfl⟩

theorem c8_witness :
    Encoder.init 256 512 ("wq") ("lin2") ("w") false false
        = Except.error ("NotImplementedError") ∧
    Encoder.init 256 512 ("w_plus") ("lin2") ("q") false false
        = Except.error ("AssertionError") ∧
    Encoder.init 256 512 ("w_plus") ("vec") ("w") false false
        = Except.error ("NotImplementedError") ∧
    Discriminator.init ("q") = Except.ok ⟨("q"), none⟩ :=
  ⟨(c8_construction_validation_amended 256 512 false false).1 ("wq") (by decide) ("lin2") ("w"),
   (c8_construction_validation_amended 256 512 false false).2.1 ("q") (by decide) ("lin2"),
   (c8_construction_validation_amended 256 512 false false).2.2.1 ("vec") (by decide),
   ((c8_construction_validation_amended 256 512 false false).2.2.2 ("q") (by decide)).1⟩

/-- Claim C9: for a batch of `N` images at a supported resolution (batch
divisible by the stddev group), `Encoder(latent_space=w)` (default `lin2`
head, non-variational) returns a code of shape `[N, n_latent * style_dim]`
for `which_latent = w_plus` and `[N, style_dim]` for `w_tied`. -/
theorem c9_encoder_output_shape (n sd r : ℕ)
    (hr : r ∈ [4, 8, 16, 32, 64, 128, 256, 512, 1024]) (hdvd : min n 4 ∣ n) :
    Encoder.forwardShape 2 r n sd ("w_plus") ("lin2") ("w") 4 false
        = some [(n : ℤ), ((Encoder.nLatent r * sd : ℕ) : ℤ)] ∧
    Encoder.forwardShape 2 r n sd ("w_tied") ("lin2") ("w") 4 false
        = some [(n : ℤ), (sd : ℤ)] := by
  have ht : Encoder.trunkShape 2 r n = some (512, [(n : ℤ), 512, 4, 4]) := by
    fin_cases hr <;> rfl
  have hinitP : Encoder.init r sd ("w_plus") ("lin2") ("w") false false =
      Except.ok ⟨sd * Encoder.nLatent r, Encoder.nLatent r,
        [.reshape, .equalLin (512 * 4 * 4) 512, .equalLin 512 (sd * Encoder.nLatent r * 1)]⟩ := rfl
  have hinitT : Encoder.init r sd ("w_tied") ("lin2") ("w") false false =
      Except.ok ⟨sd, Encoder.nLatent r,
        [.reshape, .equalLin (512 * 4 * 4) 512, .equalLin 512 (sd * 1)]⟩ := rfl
  constructor
  · rw [encoder_forwardShape_eval r n sd (sd * Encoder.nLatent r) ("w_plus") hinitP ht hdvd]
    norm_num [Nat.mul_comm]
  · exact encoder_forwardShape_eval r n sd sd ("w_tied") hinitT ht hdvd

theorem c9_witness :
    (256 ∈ [4, 8, 16, 32, 64, 128, 256, 512, 1024]) ∧ min 4 4 ∣ 4 ∧
    (Encoder.forwardShape 2 256 4 512 ("w_plus") ("lin2") ("w") 4 false
        = some [((4 : ℕ) : ℤ), ((Encoder.nLatent 256 * 512 : ℕ) : ℤ)] ∧
     Encoder.forwardShape 2 256 4 512 ("w_tied") ("lin2") ("w") 4 false
        = some [((4 : ℕ) : ℤ), ((512 : ℕ) : ℤ)]) :=
  ⟨by decide, by decide, c9_encoder_output_shape 4 512 256 (by decide) (by decide)⟩

/-- Claim C10: the minibatch-stddev view in `Discriminator.forward` and
`Encoder.forward` (group `g = min(batch, stddev_group)`, `stddev_feat = 1`)
is well-defined exactly when the batch is divisible by `g` — always for
`batch ≤ stddev_group`, and for larger batches exactly when `stddev_group`
divides the batch. -/
theorem c10_stddev_view_precondition (bt c h w sg : ℕ)
    (hb : 1 ≤ bt) (hc : 1 ≤ c) (hh : 1 ≤ h) (hw : 1 ≤ w) (hs : 1 ≤ sg) :
    ((stddevShape sg 1 [(bt : ℤ), (c : ℤ), (h : ℤ), (w : ℤ)]).isSome = true ↔ min bt sg ∣ bt) ∧
    (bt ≤ sg → min bt sg ∣ bt) ∧
    (sg < bt → (min bt sg ∣ bt ↔ sg ∣ bt)) := by
  have hchw : ((c : ℤ) * h * w) ≠ 0 := by
    have : 0 < c * h * w := Nat.mul_pos (Nat.mul_pos hc hh) hw
    exact_mod_cast Nat.pos_iff_ne_zero.mp this
  refine ⟨?_, fun hle => by rw [min_eq_left hle], fun hlt => by rw [min_eq_right (le_of_lt hlt)]⟩
  simp only [stddevShape]
  split_ifs with hd
  · simp only [Option.isSome_some, true_iff]
    simp only [Nat.cast_one, Int.ediv_one, mul_one] at hd
    have h2 : min (bt : ℤ) (sg : ℤ) * ((c : ℤ) * h * w) ∣ (bt : ℤ) * ((c : ℤ) * h * w) := by
      have h3 : min (bt : ℤ) (sg : ℤ) * ((c : ℤ) * h * w) = min (bt : ℤ) (sg : ℤ) * c * h * w := by
        ring
      have h4 : (bt : ℤ) * ((c : ℤ) * h * w) = (bt : ℤ) * c * h * w := by ring
      rw [h3, h4]
      exact hd
    rw [mul_dvd_mul_iff_right hchw, ← Nat.cast_min] at h2
    exact_mod_cast h2
  · simp only [Option.isSome_none, Bool.false_eq_true, false_iff]
    intro hmin
    apply hd
    simp only [Nat.cast_one, Int.ediv_one, mul_one]
    have h2 : min (bt : ℤ) (sg : ℤ) * ((c : ℤ) * h * w) ∣ (bt : ℤ) * ((c : ℤ) * h * w) := by
      rw [← Nat.cast_min, mul_dvd_mul_iff_right hchw]
      exact_mod_cast hmin
    calc min (bt : ℤ) (sg : ℤ) * c * h * w
        = min (bt : ℤ) (sg : ℤ) * ((c : ℤ) * h * w) := by ring
      _ ∣ (bt : ℤ) * ((c : ℤ) * h * w) := h2
      _ = (bt : ℤ) * c * h * w := by ring

theorem c10_witness :
    ((stddevShape 4 1 [((8 : ℕ) : ℤ), ((512 : ℕ) : ℤ), ((4 : ℕ) : ℤ), ((4 : ℕ) : ℤ)]).isSome
        = true ↔ min 8 4 ∣ 8) ∧
    ((8 : ℕ) ≤ 4 → min 8 4 ∣ 8) ∧
    (4 < 8 → (min (8 : ℕ) 4 ∣ 8 ↔ 4 ∣ 8)) :=
  c10_stddev_view_precondition 8 512 4 4 4 (by decide) (by decide) (by decide) (by decide)
    (by decide)
